import Mathlib

/-!
Verification of the collaborative-ledger server core (COMP90018-server).

This file gives a shallow embedding of the persistent state and of the core
operations of the server:

* the repository layer (`internal/repository`, concatenated into
  `internal/config/database.go` in this source tree): `CreateLedger`,
  `DeleteLedger`, `GetLedger`, `AddLedgerChange`,
  `GetLedgerChangesBySequenceRange`, `GetLatestSequenceNumber`,
  `CheckLedgerAccess`, `AddUserToLedger`;
* the service layer (`internal/service/service.go`): `CreateLedger`,
  `DeleteLedger`, `SubmitLedgerChange`, `GetLedgerChanges`,
  `GetLatestSequenceNumber`.

The database is modelled logically: each SQL table becomes a Lean list of
rows, a transaction becomes a pure function from the old state to either a
new state (commit) or an error (rollback, in which case no state is
produced, mirroring `tx.Rollback()` in the Go code).  The
`ledger_sequences` table and the `init_ledger_sequence` AFTER INSERT
trigger come from `scripts/db_init.sql`.  Wall-clock timestamps
(`created_at`, `updated_at`, `timestamp`) are omitted: they are
nondeterministic and no verified property depends on them.  UUID
generation (`uuid.New()`) is nondeterministic and is passed in as an
explicit fresh-identifier argument.
-/

namespace CompServer

/-- Ledger row of the `ledgers` table (`models.Ledger`). -/
structure Ledger where
  id : String
  name : String
  description : String
  currency : String
  createdBy : String
  deriving DecidableEq

/-- Row of the `ledger_users` table (`models.LedgerUser`): the access grant
for a (ledger, user) pair; `permissions` is the string "read" or "write"
in well-formed data, but the column itself is a free string. -/
structure LedgerUser where
  ledgerId : String
  userId : String
  permissions : String
  deriving DecidableEq

/-- Row of the `ledger_changes` table (`models.LedgerChange`). -/
structure LedgerChange where
  id : String
  ledgerId : String
  userId : String
  sequenceNumber : Int
  sqlStatement : String
  baseSequenceNum : Int
  deriving DecidableEq

/-- The logical database state: the four ledger-related tables.  The
`ledger_sequences` table (ledger_id PRIMARY KEY, current_sequence BIGINT)
is modelled as an association list from ledger id to counter value. -/
structure DB where
  ledgers : List Ledger
  ledgerUsers : List LedgerUser
  ledgerChanges : List LedgerChange
  ledgerSequences : List (String × Int)
  deriving DecidableEq

/-- Errors surfaced by the repository layer: `noRows` is `sql.ErrNoRows`
(scanning a query that matched nothing), `uniqueViolation` is the UNIQUE
(ledger_id, sequence_number) constraint on `ledger_changes`,
`pkViolation` is a primary-key conflict. -/
inductive DBErr where
  | noRows
  | uniqueViolation
  | pkViolation
  deriving DecidableEq

/-- Errors returned by the service layer, one constructor per `errors.New`
site in `service.go` that the verified operations can reach, plus a
wrapper for repository errors. -/
inductive ServiceError where
  | ledgerNotFound
  | deleteForbidden
  | writeForbidden
  | readForbidden
  | repoErr (e : DBErr)
  deriving DecidableEq

/-- Response of service CreateLedger (`models.LedgerResponse`, minus the
timestamp field). -/
structure LedgerResponse where
  status : String
  ledgerId : String
  name : String
  initialSequenceNumber : Int
  deriving DecidableEq

/-- Response of service SubmitLedgerChange (`models.LedgerChangeResponse`,
minus the timestamp field). -/
structure LedgerChangeResponse where
  status : String
  assignedSequenceNumber : Int
  deriving DecidableEq

/-- Response of service GetLedgerChanges
(`models.GetLedgerChangesResponse`). -/
structure GetLedgerChangesResponse where
  status : String
  ledgerId : String
  changes : List LedgerChange
  latestSequenceNumber : Int
  deriving DecidableEq

/-- Request body for ledger creation (`models.CreateLedgerRequest`). -/
structure CreateLedgerRequest where
  name : String
  description : String
  currency : String
  deriving DecidableEq

/-- Lookup in the `ledger_sequences` association list, i.e. the SQL
query `SELECT current_sequence FROM ledger_sequences WHERE ledger_id = $1`
returning the first (unique, by the PRIMARY KEY) matching row. -/
def seqLookup (seqs : List (String × Int)) (ledgerID : String) : Option Int :=
  match seqs.find? (fun p => p.1 = ledgerID) with
  | none => none
  | some p => some p.2

/-- Effect of `UPDATE ledger_sequences SET current_sequence =
current_sequence + 1 WHERE ledger_id = $1` on the table contents. -/
def seqIncrement (seqs : List (String × Int)) (ledgerID : String) :
    List (String × Int) :=
  seqs.map (fun p => if p.1 = ledgerID then (p.1, p.2 + 1) else p)

/-- Ordering of changes by sequence number, used to model
`ORDER BY sequence_number ASC`. -/
def seqLE (a b : LedgerChange) : Prop :=
  a.sequenceNumber ≤ b.sequenceNumber

instance : DecidableRel seqLE := fun a b =>
  inferInstanceAs (Decidable (a.sequenceNumber ≤ b.sequenceNumber))

instance : IsTotal LedgerChange seqLE :=
  ⟨fun a b => le_total a.sequenceNumber b.sequenceNumber⟩

instance : IsTrans LedgerChange seqLE :=
  ⟨fun _ _ _ h h' => le_trans h h'⟩

namespace Repo

/-- GetLedger in database.go: `SELECT * FROM ledgers WHERE id = $1`;
`sql.ErrNoRows` is mapped to a nil (absent) ledger. -/
def GetLedger (db : DB) (ledgerID : String) : Option Ledger :=
  db.ledgers.find? (fun l => l.id = ledgerID)

/-- Upsert step addUserToLedgerTx in database.go: if a (ledger, user) row
exists, update its permissions, otherwise insert a new row. -/
def addUserToLedgerTx (rows : List LedgerUser) (lu : LedgerUser) :
    List LedgerUser :=
  if rows.any (fun x => x.ledgerId = lu.ledgerId ∧ x.userId = lu.userId) then
    rows.map (fun x =>
      if x.ledgerId = lu.ledgerId ∧ x.userId = lu.userId then
        { x with permissions := lu.permissions }
      else x)
  else
    rows ++ [lu]

/-- Resolution of the ledger id in CreateLedger: `uuid.New()` (here the
`newID` argument) replaces an empty caller-supplied id. -/
def withFreshID (ledger : Ledger) (newID : String) : Ledger :=
  if ledger.id = "" then { ledger with id := newID } else ledger

/-- CreateLedger transaction body, continued: the committed state given
the resolved ledger row `l`. -/
def createLedgerCommit (db : DB) (l : Ledger) : DB :=
  { db with
      ledgers := db.ledgers ++ [l]
      ledgerSequences := db.ledgerSequences ++ [(l.id, 0)]
      ledgerUsers := addUserToLedgerTx db.ledgerUsers
        { ledgerId := l.id, userId := l.createdBy, permissions := "write" } }

/-- CreateLedger in database.go, together with the `init_ledger_sequence`
AFTER INSERT trigger of scripts/db_init.sql which inserts a
`ledger_sequences` row with current_sequence 0 in the same transaction.
One transaction: insert the ledger row (primary-key conflict rolls back),
trigger-insert the counter row at 0, and upsert the creator's "write"
grant. -/
def CreateLedger (db : DB) (ledger : Ledger) (newID : String) :
    Except DBErr (DB × Ledger) :=
  let l := withFreshID ledger newID
  if db.ledgers.any (fun x => x.id = l.id) then
    .error .pkViolation
  else
    .ok (createLedgerCommit db l, l)

/-- DeleteLedger in database.go: one transaction deleting the
`ledger_users` rows, the `ledger_changes` rows and the `ledgers` row for
the given id; the `ledger_sequences` row goes away with the ledger row via
its ON DELETE CASCADE foreign key (scripts/db_init.sql). -/
def DeleteLedger (db : DB) (ledgerID : String) : Except DBErr DB :=
  .ok { ledgers := db.ledgers.filter (fun l => l.id ≠ ledgerID)
        ledgerUsers := db.ledgerUsers.filter (fun lu => lu.ledgerId ≠ ledgerID)
        ledgerChanges := db.ledgerChanges.filter (fun c => c.ledgerId ≠ ledgerID)
        ledgerSequences := db.ledgerSequences.filter (fun p => p.1 ≠ ledgerID) }

/-- Mutation of the change record inside AddLedgerChange: the sequence
number is overwritten with the freshly allocated value, and `uuid.New()`
(here `newID`) replaces an empty caller-supplied id. -/
def committedChange (change : LedgerChange) (newID : String)
    (nextSeq : Int) : LedgerChange :=
  { change with
      sequenceNumber := nextSeq
      id := if change.id = "" then newID else change.id }

/-- AddLedgerChange transaction body, continued: the committed state given
the resolved change row `c`. -/
def addLedgerChangeCommit (db : DB) (c : LedgerChange) : DB :=
  { db with
      ledgerSequences := seqIncrement db.ledgerSequences c.ledgerId
      ledgerChanges := db.ledgerChanges ++ [c] }

/-- AddLedgerChange in database.go.  One transaction: atomically increment
the ledger's `ledger_sequences` row and read back the new value
(`UPDATE ... RETURNING current_sequence`; no row gives `sql.ErrNoRows` and
rollback), overwrite the caller's sequence number with that value, then
insert the change row (`ledger_changes` primary key on id, UNIQUE on
(ledger_id, sequence_number); a violation rolls the whole transaction
back); the returned change is the committed row (the Go code mutates
`change` through a pointer). -/
def AddLedgerChange (db : DB) (change : LedgerChange) (newID : String) :
    Except DBErr (DB × LedgerChange) :=
  match seqLookup db.ledgerSequences change.ledgerId with
  | none => .error .noRows
  | some cur =>
    let c := committedChange change newID (cur + 1)
    if db.ledgerChanges.any (fun x => x.id = c.id) then
      .error .pkViolation
    else if db.ledgerChanges.any
        (fun x => x.ledgerId = c.ledgerId ∧ x.sequenceNumber = cur + 1) then
      .error .uniqueViolation
    else
      .ok (addLedgerChangeCommit db c, c)

/-- Final state of the AddLedgerChange transaction: the committed state on
success, the original state on any error (`tx.Rollback()`). -/
def addLedgerChangeFinalState (db : DB) (change : LedgerChange)
    (newID : String) : DB :=
  match AddLedgerChange db change newID with
  | .ok (db', _) => db'
  | .error _ => db

/-- GetLedgerChangesBySequenceRange in database.go: select the changes of
the ledger with `sequence_number >= fromSeq`, add the condition
`sequence_number <= toSeq` only when `toSeq > 0`, and order by
sequence_number ascending. -/
def GetLedgerChangesBySequenceRange (db : DB) (ledgerID : String)
    (fromSeq toSeq : Int) : List LedgerChange :=
  let rows := db.ledgerChanges.filter
    (fun c => c.ledgerId = ledgerID ∧ fromSeq ≤ c.sequenceNumber)
  let rows := if 0 < toSeq then
      rows.filter (fun c => c.sequenceNumber ≤ toSeq)
    else rows
  rows.insertionSort seqLE

/-- GetLatestSequenceNumber in database.go: `SELECT current_sequence FROM
ledger_sequences WHERE ledger_id = $1`, with `sql.ErrNoRows` mapped to 0. -/
def GetLatestSequenceNumber (db : DB) (ledgerID : String) : Int :=
  (seqLookup db.ledgerSequences ledgerID).getD 0

/-- CheckLedgerAccess in database.go: read the stored permissions for the
(ledger, user) pair; no row means no access (false, not an error); when
"write" is required the stored permissions must be exactly "write",
otherwise any stored row suffices. -/
def CheckLedgerAccess (db : DB) (ledgerID userID requiredPermission : String) :
    Bool :=
  match db.ledgerUsers.find?
      (fun lu => lu.ledgerId = ledgerID ∧ lu.userId = userID) with
  | none => false
  | some lu =>
    if requiredPermission = "write" then lu.permissions = "write" else true

/-- AddUserToLedger in database.go: the upsert in its own transaction. -/
def AddUserToLedger (db : DB) (lu : LedgerUser) : Except DBErr DB :=
  .ok { db with ledgerUsers := addUserToLedgerTx db.ledgerUsers lu }

end Repo

namespace Service

/-- CreateLedger in service.go: build the ledger with a fresh id (`newID`
stands for `uuid.New()`), store it through the repository, and answer
with InitialSequenceNumber 0. -/
def CreateLedger (db : DB) (userID : String) (req : CreateLedgerRequest)
    (newID : String) : Except ServiceError (DB × LedgerResponse) :=
  let ledger : Ledger :=
    { id := newID, name := req.name, description := req.description
      currency := req.currency, createdBy := userID }
  match Repo.CreateLedger db ledger newID with
  | .error e => .error (.repoErr e)
  | .ok (db', l) =>
    .ok (db', { status := "success", ledgerId := l.id, name := l.name
                initialSequenceNumber := 0 })

/-- DeleteLedger in service.go: absent ledger gives the "ledger not found"
error; a requester other than the creator gives the "you don't have
permission to delete this ledger" error; otherwise delete through the
repository. -/
def DeleteLedger (db : DB) (userID ledgerID : String) :
    Except ServiceError DB :=
  match Repo.GetLedger db ledgerID with
  | none => .error .ledgerNotFound
  | some ledger =>
    if ledger.createdBy ≠ userID then
      .error .deleteForbidden
    else
      match Repo.DeleteLedger db ledgerID with
      | .error e => .error (.repoErr e)
      | .ok db' => .ok db'

/-- SubmitLedgerChange in service.go: check "write" access ("you don't
have write permission" error when denied), read the latest sequence
number as the base, pre-assign latest+1 as the sequence number (the
repository overwrites it with the committed value), append through the
repository, and answer with the committed sequence number.  `changeID`
stands for the `uuid.New()` generated in the service. -/
def SubmitLedgerChange (db : DB) (userID ledgerID sqlStatement : String)
    (changeID : String) : Except ServiceError (DB × LedgerChangeResponse) :=
  if Repo.CheckLedgerAccess db ledgerID userID "write" then
    let latestSeq := Repo.GetLatestSequenceNumber db ledgerID
    let change : LedgerChange :=
      { id := changeID, ledgerId := ledgerID, userId := userID
        sqlStatement := sqlStatement, baseSequenceNum := latestSeq
        sequenceNumber := latestSeq + 1 }
    match Repo.AddLedgerChange db change changeID with
    | .error e => .error (.repoErr e)
    | .ok (db', c) =>
      .ok (db', { status := "success"
                  assignedSequenceNumber := c.sequenceNumber })
  else
    .error .writeForbidden

/-- GetLedgerChanges in service.go: check "read" access ("you don't have
access to this ledger" error when denied), then return the range query
result together with the current latest sequence number. -/
def GetLedgerChanges (db : DB) (userID ledgerID : String)
    (fromSeq toSeq : Int) : Except ServiceError GetLedgerChangesResponse :=
  if Repo.CheckLedgerAccess db ledgerID userID "read" then
    .ok { status := "success", ledgerId := ledgerID
          changes := Repo.GetLedgerChangesBySequenceRange db ledgerID fromSeq toSeq
          latestSequenceNumber := Repo.GetLatestSequenceNumber db ledgerID }
  else
    .error .readForbidden

/-- GetLatestSequenceNumber in service.go: check "read" access, then
return the current counter value. -/
def GetLatestSequenceNumber (db : DB) (userID ledgerID : String) :
    Except ServiceError Int :=
  if Repo.CheckLedgerAccess db ledgerID userID "read" then
    .ok (Repo.GetLatestSequenceNumber db ledgerID)
  else
    .error .readForbidden

end Service

/-- The empty database: the state after `scripts/db_init.sql` has created
the schema, before any request. -/
def initDB : DB :=
  { ledgers := [], ledgerUsers := [], ledgerChanges := [], ledgerSequences := [] }

/-- States reachable from the empty database by the mutating core
operations at the service boundary: create ledger, submit change, delete
ledger.  The read operations (list changes, latest sequence) do not touch
the state, and a failed operation returns an error without a new state
(the transaction rolled back), so they induce no step. -/
inductive Reachable : DB → Prop where
  | init : Reachable initDB
  | create (db : DB) (userID : String) (req : CreateLedgerRequest)
      (newID : String) (db' : DB) (resp : LedgerResponse) :
      Reachable db →
      Service.CreateLedger db userID req newID = .ok (db', resp) →
      Reachable db'
  | submit (db : DB) (userID ledgerID sqlStatement changeID : String)
      (db' : DB) (resp : LedgerChangeResponse) :
      Reachable db →
      Service.SubmitLedgerChange db userID ledgerID sqlStatement changeID
        = .ok (db', resp) →
      Reachable db'
  | delete (db : DB) (userID ledgerID : String) (db' : DB) :
      Reachable db →
      Service.DeleteLedger db userID ledgerID = .ok db' →
      Reachable db'

/-- Sequence numbers of the changes of one ledger within a list of change
rows, in creation (insertion) order. -/
def changeSeqs (cs : List LedgerChange) (ledgerID : String) : List Int :=
  (cs.filter (fun c => c.ledgerId = ledgerID)).map (fun c => c.sequenceNumber)

/-- Sequence numbers of the persisted changes of one ledger, in creation
(insertion) order. -/
def ledgerSeqs (db : DB) (ledgerID : String) : List Int :=
  changeSeqs db.ledgerChanges ledgerID

/-- The list [1, 2, ..., n] of expected sequence numbers for a counter
value n (empty when n ≤ 0). -/
def seqList (n : Int) : List Int :=
  (List.range n.toNat).map (fun (k : Nat) => (k : Int) + 1)

/-- Invariant tying the counter table to the change log: every counter row
belongs to an existing ledger, and for every ledger id the persisted
sequence numbers, in creation order, are exactly 1, 2, ..., N for the
current counter value N (0 when the ledger has no counter row). -/
def Inv (db : DB) : Prop :=
  (∀ p ∈ db.ledgerSequences, ∃ l ∈ db.ledgers, l.id = p.1) ∧
  (∀ ledgerID : String,
    0 ≤ Repo.GetLatestSequenceNumber db ledgerID ∧
    ledgerSeqs db ledgerID =
      seqList (Repo.GetLatestSequenceNumber db ledgerID))


/-- Ledger-creation request used in the concrete scenarios below. -/
def demoReq : CreateLedgerRequest :=
  { name := "Trip", description := "shared trip", currency := "AUD" }

/-- The ledger produced by creating `demoReq` for user u1 with id L1. -/
def demoLedger : Ledger :=
  { id := "L1", name := "Trip", description := "shared trip",
    currency := "AUD", createdBy := "u1" }

/-- Database state after user u1 created ledger L1: the ledger row, the
creator's "write" grant, an empty change log, and the counter at 0. -/
def demoDB : DB :=
  { ledgers := [demoLedger]
    ledgerUsers := [{ ledgerId := "L1", userId := "u1", permissions := "write" }]
    ledgerChanges := []
    ledgerSequences := [("L1", 0)] }

/-- The change row committed by the first submission to L1. -/
def demoChange : LedgerChange :=
  { id := "c1", ledgerId := "L1", userId := "u1", sequenceNumber := 1,
    sqlStatement := "INSERT 1", baseSequenceNum := 0 }

/-- Database state after one change was submitted to L1: the change row
with sequence number 1 and the counter at 1. -/
def demoDB2 : DB :=
  { demoDB with ledgerChanges := [demoChange], ledgerSequences := [("L1", 1)] }


/-! General helper lemmas about find? and filter on row lists. -/

/-- Filtering by a predicate implied by the selection predicate does not
change a filter's result. -/
theorem filter_filter_imp {α : Type} (l : List α) (p q : α → Bool)
    (h : ∀ a, p a = true → q a = true) :
    (l.filter q).filter p = l.filter p := by
  rw [List.filter_filter]
  apply List.filter_congr
  intro a _
  by_cases hp : p a = true
  · simp [hp, h a hp]
  · simp only [Bool.eq_false_iff, ne_eq] at hp
    simp [Bool.eq_false_iff.mpr hp]

/-- Searching rows that survived a filter implied by the search predicate
finds the same row. -/
theorem find?_filter_imp {α : Type} (l : List α) (p q : α → Bool)
    (h : ∀ a, p a = true → q a = true) :
    (l.filter q).find? p = l.find? p := by
  induction l with
  | nil => rfl
  | cons hd tl ih =>
    by_cases hq : q hd = true
    · rw [List.filter_cons_of_pos hq, List.find?_cons, List.find?_cons]
      cases hp : p hd
      · exact ih
      · rfl
    · rw [List.filter_cons_of_neg hq, List.find?_cons]
      cases hp : p hd
      · exact ih
      · exact absurd (h hd hp) hq

/-- Searching rows whose filter excludes every match finds nothing. -/
theorem find?_filter_none {α : Type} (l : List α) (p q : α → Bool)
    (h : ∀ a, p a = true → q a = false) :
    (l.filter q).find? p = none := by
  induction l with
  | nil => rfl
  | cons hd tl ih =>
    by_cases hq : q hd = true
    · rw [List.filter_cons_of_pos hq, List.find?_cons]
      cases hp : p hd
      · exact ih
      · rw [h hd hp] at hq; exact absurd hq (by simp)
    · rw [List.filter_cons_of_neg hq]
      exact ih

/-! Lemmas about the `ledger_sequences` counter table. -/

/-- Counter lookup distributes over appended rows, preferring the left
(earlier) rows. -/
theorem seqLookup_append (a b : List (String × Int)) (k : String) :
    seqLookup (a ++ b) k = (seqLookup a k).or (seqLookup b k) := by
  unfold seqLookup
  rw [List.find?_append]
  cases a.find? (fun p => p.1 = k) <;>
    cases b.find? (fun p => p.1 = k) <;> rfl

/-- The counter UPDATE raises exactly the updated ledger's lookup by 1. -/
theorem seqLookup_increment_self (s : List (String × Int)) (k : String) :
    seqLookup (seqIncrement s k) k = (seqLookup s k).map (· + 1) := by
  induction s with
  | nil => rfl
  | cons hd tl ih =>
    by_cases h : hd.1 = k
    · simp [seqIncrement, seqLookup, List.find?_cons, h]
    · simp only [seqIncrement, seqLookup, List.map_cons, if_neg h] at ih ⊢
      rw [List.find?_cons, List.find?_cons]
      simp only [decide_eq_false h]
      exact ih

/-- The counter UPDATE leaves every other ledger's lookup alone. -/
theorem seqLookup_increment_other (s : List (String × Int)) (k k' : String)
    (h : k' ≠ k) :
    seqLookup (seqIncrement s k) k' = seqLookup s k' := by
  induction s with
  | nil => rfl
  | cons hd tl ih =>
    by_cases hh : hd.1 = k
    · have hne : ¬ hd.1 = k' := by rw [hh]; exact fun he => h he.symm
      simp only [seqIncrement, seqLookup, List.map_cons, if_pos hh] at ih ⊢
      rw [List.find?_cons, List.find?_cons]
      simp only [decide_eq_false hne]
      exact ih
    · simp only [seqIncrement, seqLookup, List.map_cons, if_neg hh] at ih ⊢
      rw [List.find?_cons, List.find?_cons]
      cases hc : decide (hd.1 = k')
      · exact ih
      · rfl

/-- Deleting a ledger's counter rows empties that ledger's lookup. -/
theorem seqLookup_filter_self (s : List (String × Int)) (k : String) :
    seqLookup (s.filter (fun p => p.1 ≠ k)) k = none := by
  unfold seqLookup
  rw [find?_filter_none]
  intro a ha
  simp only [decide_eq_true_eq] at ha
  simp [ha]

/-- Deleting one ledger's counter rows leaves other lookups alone. -/
theorem seqLookup_filter_other (s : List (String × Int)) (k k' : String)
    (h : k' ≠ k) :
    seqLookup (s.filter (fun p => p.1 ≠ k)) k' = seqLookup s k' := by
  unfold seqLookup
  rw [find?_filter_imp]
  intro a ha
  simp only [decide_eq_true_eq] at ha
  simp [ha, h]

/-! Lemmas about per-ledger sequence-number lists. -/

/-- Appended change rows contribute their sequence numbers at the end. -/
theorem changeSeqs_append (a b : List LedgerChange) (k : String) :
    changeSeqs (a ++ b) k = changeSeqs a k ++ changeSeqs b k := by
  unfold changeSeqs
  rw [List.filter_append, List.map_append]

/-- A single change row of the ledger contributes its sequence number. -/
theorem changeSeqs_singleton_self (c : LedgerChange) (k : String)
    (h : c.ledgerId = k) : changeSeqs [c] k = [c.sequenceNumber] := by
  simp [changeSeqs, h]

/-- A single change row of another ledger contributes nothing. -/
theorem changeSeqs_singleton_other (c : LedgerChange) (k : String)
    (h : c.ledgerId ≠ k) : changeSeqs [c] k = [] := by
  simp [changeSeqs, h]

/-- Deleting a ledger's change rows empties its sequence-number list. -/
theorem changeSeqs_filter_self (cs : List LedgerChange) (k : String) :
    changeSeqs (cs.filter (fun c => c.ledgerId ≠ k)) k = [] := by
  unfold changeSeqs
  rw [List.filter_filter]
  have hnil :
      (cs.filter fun a => decide (a.ledgerId = k) && decide (a.ledgerId ≠ k))
        = [] := by
    apply List.filter_eq_nil_iff.mpr
    intro a _
    by_cases h : a.ledgerId = k <;> simp [h]
  rw [hnil]
  rfl

/-- Deleting one ledger's change rows leaves other ledgers' sequence
numbers alone. -/
theorem changeSeqs_filter_other (cs : List LedgerChange) (k k' : String)
    (h : k' ≠ k) :
    changeSeqs (cs.filter (fun c => c.ledgerId ≠ k)) k' = changeSeqs cs k' := by
  unfold changeSeqs
  rw [filter_filter_imp]
  intro a ha
  simp only [decide_eq_true_eq] at ha ⊢
  rw [ha]
  exact h

/-! Lemmas about the expected sequence list 1, ..., n. -/

/-- Extending the expected list by one more sequence number. -/
theorem seqList_succ (n : Int) (h : 0 ≤ n) :
    seqList (n + 1) = seqList n ++ [n + 1] := by
  unfold seqList
  have h1 : (n + 1).toNat = n.toNat + 1 := by omega
  have h2 : ((n.toNat : Int)) + 1 = n + 1 := by omega
  rw [h1, List.range_succ, List.map_append, List.map_cons, List.map_nil, h2]

/-- Membership in the expected list is exactly the interval 1..n. -/
theorem mem_seqList (n k : Int) (h : 0 ≤ n) :
    k ∈ seqList n ↔ 1 ≤ k ∧ k ≤ n := by
  unfold seqList
  simp only [List.mem_map, List.mem_range]
  constructor
  · rintro ⟨m, hm, rfl⟩
    omega
  · rintro ⟨h1, h2⟩
    exact ⟨(k - 1).toNat, by omega, by omega⟩

/-- The expected list has no duplicates. -/
theorem seqList_nodup (n : Int) : (seqList n).Nodup := by
  unfold seqList
  apply List.Nodup.map
  · intro a b hab
    simp only at hab
    omega
  · exact List.nodup_range n.toNat

/-- The expected list is strictly increasing. -/
theorem seqList_sorted (n : Int) : List.Sorted (· < ·) (seqList n) := by
  have h := List.sorted_lt_range n.toNat
  unfold seqList
  refine List.Pairwise.map _ ?_ h
  intro a b hab
  omega


theorem inv_init : Inv initDB := by
  constructor
  · intro p hp
    simp [initDB] at hp
  · intro lid
    constructor
    · simp [Repo.GetLatestSequenceNumber, seqLookup, initDB]
    · simp [ledgerSeqs, changeSeqs, Repo.GetLatestSequenceNumber, seqLookup,
        initDB, seqList]

theorem inv_repo_create (db : DB) (ledger : Ledger) (newID : String)
    (db' : DB) (l : Ledger) (hInv : Inv db)
    (h : Repo.CreateLedger db ledger newID = .ok (db', l)) : Inv db' := by
  simp only [Repo.CreateLedger] at h
  generalize Repo.withFreshID ledger newID = l0 at h
  split at h
  · exact absurd h (by simp)
  · rename_i hguard
    injection h with h
    injection h with h1 h2
    subst h1
    constructor
    · intro p hp
      simp only [Repo.createLedgerCommit, List.mem_append] at hp ⊢
      rcases hp with hp | hp
      · obtain ⟨w, hw, hid⟩ := hInv.1 p hp
        exact ⟨w, Or.inl hw, hid⟩
      · simp only [List.mem_singleton] at hp
        subst hp
        exact ⟨l0, Or.inr (List.mem_singleton_self _), rfl⟩
    · intro lid
      have hbase := hInv.2 lid
      simp only [Repo.GetLatestSequenceNumber, ledgerSeqs,
        Repo.createLedgerCommit] at hbase ⊢
      rw [seqLookup_append]
      cases hc : seqLookup db.ledgerSequences lid with
      | some v =>
        rw [hc] at hbase
        simpa using hbase
      | none =>
        rw [hc] at hbase
        simp only [Option.none_or]
        by_cases hlid : lid = l0.id
        · subst hlid
          simp [seqLookup, List.find?_cons]
          simpa using hbase
        · have hne : ¬ (l0.id = lid) := fun he => hlid he.symm
          have hnone : seqLookup [(l0.id, (0 : Int))] lid = none := by
            simp [seqLookup, List.find?_cons, hne]
          rw [hnone]
          simpa using hbase


theorem inv_commit_add (db : DB) (change : LedgerChange) (newID : String)
    (cur : Int) (hInv : Inv db)
    (hcur : seqLookup db.ledgerSequences change.ledgerId = some cur) :
    Inv (Repo.addLedgerChangeCommit db
      (Repo.committedChange change newID (cur + 1))) := by
  have hcl : (Repo.committedChange change newID (cur + 1)).ledgerId
      = change.ledgerId := rfl
  have hcs : (Repo.committedChange change newID (cur + 1)).sequenceNumber
      = cur + 1 := rfl
  constructor
  · intro p hp
    simp only [Repo.addLedgerChangeCommit] at hp
    obtain ⟨q, hq, hpq⟩ := List.mem_map.mp hp
    have hkey : p.1 = q.1 := by
      by_cases hqk : q.1 = (Repo.committedChange change newID (cur + 1)).ledgerId
      · rw [if_pos hqk] at hpq
        subst hpq
        rfl
      · rw [if_neg hqk] at hpq
        subst hpq
        rfl
    obtain ⟨w, hw, hid⟩ := hInv.1 q hq
    exact ⟨w, hw, by rw [hid, hkey]⟩
  · intro lid
    have hbase := hInv.2 lid
    by_cases heq : lid = change.ledgerId
    · subst heq
      have hlat : Repo.GetLatestSequenceNumber db change.ledgerId = cur := by
        simp [Repo.GetLatestSequenceNumber, hcur]
      rw [hlat] at hbase
      have hlat' : Repo.GetLatestSequenceNumber
          (Repo.addLedgerChangeCommit db
            (Repo.committedChange change newID (cur + 1))) change.ledgerId
          = cur + 1 := by
        simp [Repo.GetLatestSequenceNumber, Repo.addLedgerChangeCommit,
          hcl, seqLookup_increment_self, hcur]
      rw [hlat']
      refine ⟨by omega, ?_⟩
      have hbase2 : changeSeqs db.ledgerChanges change.ledgerId = seqList cur :=
        hbase.2
      simp only [ledgerSeqs, Repo.addLedgerChangeCommit]
      rw [changeSeqs_append, changeSeqs_singleton_self _ _ hcl, hcs,
        hbase2, seqList_succ cur hbase.1]
    · have hlat' : Repo.GetLatestSequenceNumber
          (Repo.addLedgerChangeCommit db
            (Repo.committedChange change newID (cur + 1))) lid
          = Repo.GetLatestSequenceNumber db lid := by
        simp only [Repo.GetLatestSequenceNumber, Repo.addLedgerChangeCommit,
          hcl, seqLookup_increment_other _ _ _ heq]
      rw [hlat']
      refine ⟨hbase.1, ?_⟩
      have hbase2 : changeSeqs db.ledgerChanges lid
          = seqList (Repo.GetLatestSequenceNumber db lid) := hbase.2
      simp only [ledgerSeqs, Repo.addLedgerChangeCommit]
      rw [changeSeqs_append,
        changeSeqs_singleton_other _ _ (by rw [hcl]; exact fun he => heq he.symm),
        List.append_nil]
      exact hbase2

theorem inv_repo_add (db : DB) (change : LedgerChange) (newID : String)
    (db' : DB) (c : LedgerChange) (hInv : Inv db)
    (h : Repo.AddLedgerChange db change newID = .ok (db', c)) : Inv db' := by
  simp only [Repo.AddLedgerChange] at h
  split at h
  · exact absurd h (by simp)
  · rename_i cur hcur
    split at h
    · exact absurd h (by simp)
    · split at h
      · exact absurd h (by simp)
      · injection h with h
        injection h with h1 h2
        subst h1
        exact inv_commit_add db change newID cur hInv hcur

theorem inv_repo_delete (db : DB) (ledgerID : String) (db' : DB)
    (hInv : Inv db) (h : Repo.DeleteLedger db ledgerID = .ok db') : Inv db' := by
  simp only [Repo.DeleteLedger] at h
  injection h with h
  subst h
  constructor
  · intro p hp
    rw [List.mem_filter] at hp
    obtain ⟨hp, hpne⟩ := hp
    have hpne' : ¬ p.1 = ledgerID := by simpa using hpne
    obtain ⟨w, hw, hid⟩ := hInv.1 p hp
    refine ⟨w, ?_, hid⟩
    rw [List.mem_filter]
    refine ⟨hw, ?_⟩
    simp [hid, hpne']
  · intro lid
    have hbase := hInv.2 lid
    by_cases heq : lid = ledgerID
    · subst heq
      simp only [Repo.GetLatestSequenceNumber, ledgerSeqs]
      rw [seqLookup_filter_self, changeSeqs_filter_self]
      exact ⟨by simp, rfl⟩
    · simp only [Repo.GetLatestSequenceNumber, ledgerSeqs]
      rw [seqLookup_filter_other _ _ _ heq, changeSeqs_filter_other _ _ _ heq]
      exact hbase


theorem inv_service_create (db : DB) (userID : String)
    (req : CreateLedgerRequest) (newID : String) (db' : DB)
    (resp : LedgerResponse) (hInv : Inv db)
    (h : Service.CreateLedger db userID req newID = .ok (db', resp)) :
    Inv db' := by
  simp only [Service.CreateLedger] at h
  split at h
  · exact absurd h (by simp)
  · rename_i db0 l0 hrepo
    injection h with h
    injection h with h1 h2
    subst h1
    exact inv_repo_create db _ newID _ l0 hInv hrepo

theorem inv_service_submit (db : DB)
    (userID ledgerID sqlStatement changeID : String)
    (db' : DB) (resp : LedgerChangeResponse) (hInv : Inv db)
    (h : Service.SubmitLedgerChange db userID ledgerID sqlStatement changeID
      = .ok (db', resp)) : Inv db' := by
  simp only [Service.SubmitLedgerChange] at h
  split at h
  · split at h
    · exact absurd h (by simp)
    · rename_i db0 c0 hrepo
      injection h with h
      injection h with h1 h2
      subst h1
      exact inv_repo_add db _ changeID _ c0 hInv hrepo
  · exact absurd h (by simp)

theorem inv_service_delete (db : DB) (userID ledgerID : String) (db' : DB)
    (hInv : Inv db)
    (h : Service.DeleteLedger db userID ledgerID = .ok db') : Inv db' := by
  simp only [Service.DeleteLedger] at h
  split at h
  · exact absurd h (by simp)
  · rename_i ledger hledger
    split at h
    · exact absurd h (by simp)
    · split at h
      · exact absurd h (by simp)
      · rename_i db0 hrepo
        injection h with h
        subst h
        exact inv_repo_delete db ledgerID _ hInv hrepo

theorem reachable_inv (db : DB) (h : Reachable db) : Inv db := by
  induction h with
  | init => exact inv_init
  | create db uid req nid db' resp hr hop ih =>
    exact inv_service_create db uid req nid db' resp ih hop
  | submit db uid lid stmt cid db' resp hr hop ih =>
    exact inv_service_submit db uid lid stmt cid db' resp ih hop
  | delete db uid lid db' hr hop ih =>
    exact inv_service_delete db uid lid db' ih hop


/-- Upserting a grant leaves a row with the granted capability for the
(ledger, user) pair. -/
theorem addUserToLedgerTx_mem (rows : List LedgerUser) (lu : LedgerUser) :
    ∃ x ∈ Repo.addUserToLedgerTx rows lu, x.ledgerId = lu.ledgerId ∧
      x.userId = lu.userId ∧ x.permissions = lu.permissions := by
  unfold Repo.addUserToLedgerTx
  split
  · rename_i hany
    rw [List.any_eq_true] at hany
    obtain ⟨x, hx, hpx⟩ := hany
    simp only [decide_eq_true_eq] at hpx
    refine ⟨{ x with permissions := lu.permissions }, ?_, hpx.1, hpx.2, rfl⟩
    rw [List.mem_map]
    exact ⟨x, hx, by rw [if_pos hpx]⟩
  · exact ⟨lu, List.mem_append_right _ (List.mem_singleton_self _),
      rfl, rfl, rfl⟩

/-- C1: in every state reachable by the core operations, each ledger's
persisted sequence numbers are exactly the set {1, ..., N} for the
current counter value N, with no duplicates, strictly increasing in
creation order. -/
theorem seq_numbers_gap_free (db : DB) (h : Reachable db)
    (ledgerID : String) :
    (∀ k : Int, k ∈ ledgerSeqs db ledgerID ↔
      1 ≤ k ∧ k ≤ Repo.GetLatestSequenceNumber db ledgerID) ∧
    (ledgerSeqs db ledgerID).Nodup ∧
    List.Sorted (· < ·) (ledgerSeqs db ledgerID) := by
  obtain ⟨-, hseq⟩ := reachable_inv db h
  obtain ⟨hpos, heq⟩ := hseq ledgerID
  refine ⟨?_, ?_, ?_⟩
  · intro k
    rw [heq]
    exact mem_seqList _ k hpos
  · rw [heq]
    exact seqList_nodup _
  · rw [heq]
    exact seqList_sorted _

/-- C1 witness: the gap-freedom property instantiated at the concrete
reachable state with one ledger holding one committed change. -/
theorem seq_numbers_gap_free_witness :
    (∀ k : Int, k ∈ ledgerSeqs demoDB2 "L1" ↔
      1 ≤ k ∧ k ≤ Repo.GetLatestSequenceNumber demoDB2 "L1") ∧
    (ledgerSeqs demoDB2 "L1").Nodup ∧
    List.Sorted (· < ·) (ledgerSeqs demoDB2 "L1") :=
  seq_numbers_gap_free demoDB2
    (Reachable.submit demoDB "u1" "L1" "INSERT 1" "c1" demoDB2 _
      (Reachable.create initDB "u1" demoReq "L1" demoDB _ Reachable.init rfl)
      rfl)
    "L1"


/-- C2: one call to the allocate-and-append step either commits both the
counter increment and the change-row insert, or returns an error with the
rolled-back final state identical to the original state. -/
theorem addLedgerChange_atomic (db : DB) (change : LedgerChange)
    (newID : String) :
    (∃ db' c, Repo.AddLedgerChange db change newID = Except.ok (db', c) ∧
      Repo.addLedgerChangeFinalState db change newID = db' ∧
      Repo.GetLatestSequenceNumber db' change.ledgerId
        = Repo.GetLatestSequenceNumber db change.ledgerId + 1 ∧
      db'.ledgerChanges = db.ledgerChanges ++ [c]) ∨
    (∃ e, Repo.AddLedgerChange db change newID = Except.error e ∧
      Repo.addLedgerChangeFinalState db change newID = db) := by
  cases hres : Repo.AddLedgerChange db change newID with
  | error e =>
    refine Or.inr ⟨e, rfl, ?_⟩
    simp [Repo.addLedgerChangeFinalState, hres]
  | ok p =>
    obtain ⟨db', c⟩ := p
    have h := hres
    simp only [Repo.AddLedgerChange] at h
    split at h
    · exact absurd h (by simp)
    · rename_i cur hcur
      split at h
      · exact absurd h (by simp)
      · split at h
        · exact absurd h (by simp)
        · injection h with h
          injection h with h1 h2
          subst h1
          subst h2
          refine Or.inl ⟨_, _, rfl, ?_, ?_, ?_⟩
          · simp [Repo.addLedgerChangeFinalState, hres]
          · have hcl : (Repo.committedChange change newID (cur + 1)).ledgerId
                = change.ledgerId := rfl
            simp [Repo.GetLatestSequenceNumber, Repo.addLedgerChangeCommit,
              hcl, seqLookup_increment_self, hcur]
          · simp [Repo.addLedgerChangeCommit]


/-- C3: a successful submission returns and persists exactly the sequence
number produced by the counter increment at commit time (the counter's new
committed value), and the sequence number carried on the caller's change
record is overridden: the append result does not depend on it. -/
theorem submit_sequence_authoritative (db : DB)
    (userID ledgerID sqlStatement changeID : String) (db' : DB)
    (resp : LedgerChangeResponse)
    (h : Service.SubmitLedgerChange db userID ledgerID sqlStatement changeID
      = .ok (db', resp)) :
    resp.assignedSequenceNumber
      = Repo.GetLatestSequenceNumber db ledgerID + 1 ∧
    Repo.GetLatestSequenceNumber db' ledgerID = resp.assignedSequenceNumber ∧
    (∃ c ∈ db'.ledgerChanges, c.ledgerId = ledgerID ∧
      c.sequenceNumber = resp.assignedSequenceNumber) ∧
    (∀ (change : LedgerChange) (newID : String) (s : Int),
      Repo.AddLedgerChange db { change with sequenceNumber := s } newID
        = Repo.AddLedgerChange db change newID) := by
  have hover : ∀ (change : LedgerChange) (newID : String) (s : Int),
      Repo.AddLedgerChange db { change with sequenceNumber := s } newID
        = Repo.AddLedgerChange db change newID := by
    intro change newID s
    rfl
  simp only [Service.SubmitLedgerChange] at h
  split at h
  · split at h
    · exact absurd h (by simp)
    · rename_i db0 c0 hrepo
      injection h with h
      injection h with h1 h2
      subst h1
      subst h2
      have h := hrepo
      simp only [Repo.AddLedgerChange] at h
      split at h
      · exact absurd h (by simp)
      · rename_i cur hcur
        split at h
        · exact absurd h (by simp)
        · split at h
          · exact absurd h (by simp)
          · injection h with h
            injection h with h1 h2
            subst h1
            subst h2
            have hlat : Repo.GetLatestSequenceNumber db ledgerID = cur := by
              simp [Repo.GetLatestSequenceNumber]
              rw [show seqLookup db.ledgerSequences ledgerID = some cur
                from hcur]
              rfl
            refine ⟨?_, ?_, ?_, hover⟩
            · rw [hlat]
              rfl
            · show (seqLookup (seqIncrement db.ledgerSequences ledgerID)
                  ledgerID).getD 0 = cur + 1
              rw [seqLookup_increment_self, hcur]
              rfl
            · refine ⟨Repo.committedChange _ changeID (cur + 1),
                List.mem_append_right _ (List.mem_singleton_self _), rfl, rfl⟩
  · exact absurd h (by simp)


/-- C3 witness: the authoritative-sequence property at the concrete first
submission to ledger L1. -/
theorem submit_sequence_authoritative_witness :
    (1 : Int) = Repo.GetLatestSequenceNumber demoDB "L1" + 1 ∧
    Repo.GetLatestSequenceNumber demoDB2 "L1" = 1 ∧
    (∃ c ∈ demoDB2.ledgerChanges, c.ledgerId = "L1" ∧
      c.sequenceNumber = 1) ∧
    (∀ (change : LedgerChange) (newID : String) (s : Int),
      Repo.AddLedgerChange demoDB { change with sequenceNumber := s } newID
        = Repo.AddLedgerChange demoDB change newID) :=
  submit_sequence_authoritative demoDB "u1" "L1" "INSERT 1" "c1" demoDB2
    { status := "success", assignedSequenceNumber := 1 } rfl

/-- C4: a successful ledger creation from a reachable state leaves the
ledger row with the request's fields and the creator, a `ledger_sequences`
counter row at exactly 0, a "write" grant for the creator, and reports
initial sequence number 0; all these effects are parts of one committed
state (an aborted creation produces no state at all). -/
theorem createLedger_initializes (db : DB) (userID : String)
    (req : CreateLedgerRequest) (newID : String) (db' : DB)
    (resp : LedgerResponse) (hr : Reachable db)
    (h : Service.CreateLedger db userID req newID = .ok (db', resp)) :
    resp.initialSequenceNumber = 0 ∧
    (∃ l ∈ db'.ledgers, l.id = resp.ledgerId ∧ l.name = req.name ∧
      l.description = req.description ∧ l.currency = req.currency ∧
      l.createdBy = userID) ∧
    seqLookup db'.ledgerSequences resp.ledgerId = some 0 ∧
    Repo.GetLatestSequenceNumber db' resp.ledgerId = 0 ∧
    (∃ lu ∈ db'.ledgerUsers, lu.ledgerId = resp.ledgerId ∧
      lu.userId = userID ∧ lu.permissions = "write") := by
  simp only [Service.CreateLedger] at h
  split at h
  · exact absurd h (by simp)
  · rename_i db0 l0 hrepo
    injection h with h
    injection h with h1 h2
    subst h1
    subst h2
    simp only [Repo.CreateLedger] at hrepo
    rw [show Repo.withFreshID
        { id := newID, name := req.name, description := req.description,
          currency := req.currency, createdBy := userID } newID
      = { id := newID, name := req.name, description := req.description,
          currency := req.currency, createdBy := userID } from by
        unfold Repo.withFreshID
        split <;> rfl] at hrepo
    split at hrepo
    · exact absurd hrepo (by simp)
    · rename_i hguard
      injection hrepo with hrepo
      injection hrepo with h1 h2
      subst h1
      subst h2
      have hnone : seqLookup db.ledgerSequences newID = none := by
        cases hc : seqLookup db.ledgerSequences newID with
        | none => rfl
        | some v =>
          exfalso
          unfold seqLookup at hc
          cases hf : db.ledgerSequences.find? (fun p => p.1 = newID) with
          | none => rw [hf] at hc; exact absurd hc (by simp)
          | some q =>
            have hq : q ∈ db.ledgerSequences := List.mem_of_find?_eq_some hf
            have hqk : q.1 = newID := by
              have := List.find?_some hf
              simpa using this
            obtain ⟨-, hkeys⟩ := And.intro trivial (reachable_inv db hr).1
            obtain ⟨w, hw, hid⟩ := hkeys q hq
            apply hguard
            rw [List.any_eq_true]
            exact ⟨w, hw, by simp [hid, hqk]⟩
      constructor
      · rfl
      constructor
      · refine ⟨_, List.mem_append_right _ (List.mem_singleton_self _),
          rfl, rfl, rfl, rfl, rfl⟩
      constructor
      · show seqLookup (db.ledgerSequences ++ [(newID, 0)]) newID = some 0
        rw [seqLookup_append, hnone]
        simp [seqLookup]
      constructor
      · show (seqLookup (db.ledgerSequences ++ [(newID, 0)]) newID).getD 0 = 0
        rw [seqLookup_append, hnone]
        simp [seqLookup]
      · obtain ⟨x, hx, hl, hu, hp⟩ := addUserToLedgerTx_mem db.ledgerUsers
          { ledgerId := newID, userId := userID, permissions := "write" }
        exact ⟨x, hx, hl, hu, hp⟩

/-- C4 witness: creating ledger L1 for user u1 from the empty database. -/
theorem createLedger_initializes_witness :
    ((({ status := "success", ledgerId := "L1", name := "Trip",
          initialSequenceNumber := 0 }
        : LedgerResponse)).initialSequenceNumber = 0) ∧
    (∃ l ∈ demoDB.ledgers, l.id = "L1" ∧ l.name = "Trip" ∧
      l.description = "shared trip" ∧ l.currency = "AUD" ∧
      l.createdBy = "u1") ∧
    seqLookup demoDB.ledgerSequences "L1" = some 0 ∧
    Repo.GetLatestSequenceNumber demoDB "L1" = 0 ∧
    (∃ lu ∈ demoDB.ledgerUsers, lu.ledgerId = "L1" ∧
      lu.userId = "u1" ∧ lu.permissions = "write") :=
  createLedger_initializes initDB "u1" demoReq "L1" demoDB
    { status := "success", ledgerId := "L1", name := "Trip",
      initialSequenceNumber := 0 } Reachable.init rfl


/-- C5: a successful (hence authorized) service delete leaves no access
grant, no change row, no counter row and no ledger row for the deleted
ledger id. -/
theorem deleteLedger_removes_all (db : DB) (userID ledgerID : String)
    (db' : DB) (h : Service.DeleteLedger db userID ledgerID = .ok db') :
    (∀ lu ∈ db'.ledgerUsers, lu.ledgerId ≠ ledgerID) ∧
    (∀ c ∈ db'.ledgerChanges, c.ledgerId ≠ ledgerID) ∧
    (∀ p ∈ db'.ledgerSequences, p.1 ≠ ledgerID) ∧
    (∀ l ∈ db'.ledgers, l.id ≠ ledgerID) := by
  simp only [Service.DeleteLedger] at h
  split at h
  · exact absurd h (by simp)
  · split at h
    · exact absurd h (by simp)
    · simp only [Repo.DeleteLedger] at h
      injection h with h
      subst h
      refine ⟨?_, ?_, ?_, ?_⟩
      · intro lu hlu
        rw [List.mem_filter] at hlu
        simpa using hlu.2
      · intro c hc
        rw [List.mem_filter] at hc
        simpa using hc.2
      · intro p hp
        rw [List.mem_filter] at hp
        simpa using hp.2
      · intro l hl
        rw [List.mem_filter] at hl
        simpa using hl.2

/-- C5 witness: deleting ledger L1 (which holds one change, one grant and
its counter) leaves nothing for L1. -/
theorem deleteLedger_removes_all_witness :
    (∀ lu ∈ initDB.ledgerUsers, lu.ledgerId ≠ "L1") ∧
    (∀ c ∈ initDB.ledgerChanges, c.ledgerId ≠ "L1") ∧
    (∀ p ∈ initDB.ledgerSequences, p.1 ≠ "L1") ∧
    (∀ l ∈ initDB.ledgers, l.id ≠ "L1") :=
  deleteLedger_removes_all demoDB2 "u1" "L1" initDB rfl

/-- Capability dominance as the specification words it: "write" dominates
both "write" and "read", while "read" dominates only "read". -/
def specDominates (stored required : String) : Bool :=
  (stored = "write" && (required = "write" || required = "read")) ||
  (stored = "read" && required = "read")

/-- C6: for well-formed capabilities, the access check answers exactly the
dominance relation on the stored grant, and answers false (no access, not
an error) when no grant row exists for the (ledger, user) pair. -/
theorem checkLedgerAccess_dominance (db : DB)
    (ledgerID userID required : String)
    (hreq : required = "read" ∨ required = "write") :
    (∀ lu, db.ledgerUsers.find?
        (fun x => x.ledgerId = ledgerID ∧ x.userId = userID) = some lu →
      lu.permissions = "read" ∨ lu.permissions = "write" →
      Repo.CheckLedgerAccess db ledgerID userID required
        = specDominates lu.permissions required) ∧
    (db.ledgerUsers.find?
        (fun x => x.ledgerId = ledgerID ∧ x.userId = userID) = none →
      Repo.CheckLedgerAccess db ledgerID userID required = false) := by
  constructor
  · intro lu hfind hperm
    simp only [Repo.CheckLedgerAccess, hfind]
    rcases hperm with hp | hp <;> rw [hp] <;>
      rcases hreq with hq | hq <;> rw [hq] <;> decide
  · intro hfind
    simp only [Repo.CheckLedgerAccess, hfind]

/-- C6 witness: the creator's "write" grant on L1 dominates a "write"
requirement, and an unknown user has no access. -/
theorem checkLedgerAccess_dominance_witness :
    Repo.CheckLedgerAccess demoDB "L1" "u1" "write"
      = specDominates "write" "write" ∧
    Repo.CheckLedgerAccess demoDB "L1" "u2" "read" = false :=
  ⟨(checkLedgerAccess_dominance demoDB "L1" "u1" "write" (Or.inr rfl)).1
      { ledgerId := "L1", userId := "u1", permissions := "write" } rfl
      (Or.inr rfl),
    (checkLedgerAccess_dominance demoDB "L1" "u2" "read" (Or.inl rfl)).2 rfl⟩


/-- C7: the range query returns exactly the ledger's persisted changes
with fromSeq ≤ sequence number (bounded above by toSeq only when
toSeq > 0), in ascending sequence-number order, and under read access the
service wraps any such result (an empty one included) in a non-error
response together with the latest sequence number. -/
theorem rangeQuery_correct (db : DB) (ledgerID : String)
    (fromSeq toSeq : Int) :
    (∀ c, c ∈ Repo.GetLedgerChangesBySequenceRange db ledgerID fromSeq toSeq
      ↔ (c ∈ db.ledgerChanges ∧ c.ledgerId = ledgerID ∧
          fromSeq ≤ c.sequenceNumber ∧
          (0 < toSeq → c.sequenceNumber ≤ toSeq))) ∧
    List.Sorted seqLE
      (Repo.GetLedgerChangesBySequenceRange db ledgerID fromSeq toSeq) ∧
    (∀ userID, Repo.CheckLedgerAccess db ledgerID userID "read" = true →
      Service.GetLedgerChanges db userID ledgerID fromSeq toSeq
        = .ok { status := "success", ledgerId := ledgerID,
                changes :=
                  Repo.GetLedgerChangesBySequenceRange db ledgerID fromSeq
                    toSeq,
                latestSequenceNumber :=
                  Repo.GetLatestSequenceNumber db ledgerID }) := by
  refine ⟨?_, ?_, ?_⟩
  · intro c
    simp only [Repo.GetLedgerChangesBySequenceRange]
    rw [List.mem_insertionSort]
    by_cases ht : 0 < toSeq
    · rw [if_pos ht]
      simp only [List.mem_filter, decide_eq_true_eq]
      constructor
      · rintro ⟨⟨hmem, hl, hf⟩, hto⟩
        exact ⟨hmem, hl, hf, fun _ => hto⟩
      · rintro ⟨hmem, hl, hf, hto⟩
        exact ⟨⟨hmem, hl, hf⟩, hto ht⟩
    · rw [if_neg ht]
      simp only [List.mem_filter, decide_eq_true_eq]
      constructor
      · rintro ⟨hmem, hl, hf⟩
        exact ⟨hmem, hl, hf, fun hto => absurd hto ht⟩
      · rintro ⟨hmem, hl, hf, -⟩
        exact ⟨hmem, hl, hf⟩
  · simp only [Repo.GetLedgerChangesBySequenceRange]
    exact List.sorted_insertionSort seqLE _
  · intro userID hacc
    simp only [Service.GetLedgerChanges]
    rw [if_pos hacc]

/-- C7 witness: the range query over the state holding one committed
change, read by its creator. -/
theorem rangeQuery_correct_witness :
    ((demoChange ∈ Repo.GetLedgerChangesBySequenceRange demoDB2 "L1" 1 0
      ↔ (demoChange ∈ demoDB2.ledgerChanges ∧ demoChange.ledgerId = "L1" ∧
          1 ≤ demoChange.sequenceNumber ∧
          (0 < (0 : Int) → demoChange.sequenceNumber ≤ 0)))) ∧
    List.Sorted seqLE
      (Repo.GetLedgerChangesBySequenceRange demoDB2 "L1" 1 0) ∧
    (Repo.CheckLedgerAccess demoDB2 "L1" "u1" "read" = true →
      Service.GetLedgerChanges demoDB2 "u1" "L1" 1 0
        = .ok { status := "success", ledgerId := "L1",
                changes :=
                  Repo.GetLedgerChangesBySequenceRange demoDB2 "L1" 1 0,
                latestSequenceNumber :=
                  Repo.GetLatestSequenceNumber demoDB2 "L1" }) :=
  ⟨(rangeQuery_correct demoDB2 "L1" 1 0).1 demoChange,
   (rangeQuery_correct demoDB2 "L1" 1 0).2.1,
   fun _ => (rangeQuery_correct demoDB2 "L1" 1 0).2.2 "u1" rfl⟩

/-- C8: the service delete authorizes on creatorship alone: a missing
ledger yields the not-found error, a requester other than the creator
yields the forbidden error (grants play no role), and the creator's
request proceeds to a deletion that removes the ledger row. -/
theorem deleteLedger_authorization (db : DB) (userID ledgerID : String) :
    (Repo.GetLedger db ledgerID = none →
      Service.DeleteLedger db userID ledgerID
        = .error ServiceError.ledgerNotFound) ∧
    (∀ l, Repo.GetLedger db ledgerID = some l → l.createdBy ≠ userID →
      Service.DeleteLedger db userID ledgerID
        = .error ServiceError.deleteForbidden) ∧
    (∀ l, Repo.GetLedger db ledgerID = some l → l.createdBy = userID →
      ∃ db', Service.DeleteLedger db userID ledgerID = .ok db' ∧
        Repo.GetLedger db' ledgerID = none) := by
  refine ⟨?_, ?_, ?_⟩
  · intro h0
    simp only [Service.DeleteLedger, h0]
  · intro l hl hne
    simp only [Service.DeleteLedger, hl]
    rw [if_pos hne]
  · intro l hl he
    simp only [Service.DeleteLedger, hl]
    rw [if_neg (by simp [he])]
    simp only [Repo.DeleteLedger]
    refine ⟨_, rfl, ?_⟩
    simp only [Repo.GetLedger]
    rw [find?_filter_none]
    intro a ha
    simp only [decide_eq_true_eq] at ha
    simp [ha]

/-- C8 witness: the three authorization outcomes at concrete states — a
missing ledger, a non-creator requester, and the creator. -/
theorem deleteLedger_authorization_witness :
    Service.DeleteLedger initDB "u1" "L1"
      = .error ServiceError.ledgerNotFound ∧
    Service.DeleteLedger demoDB "u2" "L1"
      = .error ServiceError.deleteForbidden ∧
    (∃ db', Service.DeleteLedger demoDB "u1" "L1" = .ok db' ∧
      Repo.GetLedger db' "L1" = none) :=
  ⟨(deleteLedger_authorization initDB "u1" "L1").1 rfl,
   (deleteLedger_authorization demoDB "u2" "L1").2.1 demoLedger rfl
     (by decide),
   (deleteLedger_authorization demoDB "u1" "L1").2.2 demoLedger rfl rfl⟩


/-- C9 counterexample: after user u1 deletes ledger L1, a listChanges call
by the same user on that id fails with the no-access (read-forbidden)
error, which is not the not-found error the claim expects. -/
theorem listChanges_after_delete_not_notFound :
    Service.DeleteLedger demoDB2 "u1" "L1" = Except.ok initDB ∧
    Service.GetLedgerChanges initDB "u1" "L1" 1 0
      = Except.error ServiceError.readForbidden ∧
    ServiceError.readForbidden ≠ ServiceError.ledgerNotFound :=
  ⟨rfl, rfl, by decide⟩

/-- C9 amended: after a ledger has been deleted, a subsequent listChanges
on that ledger id fails — with the no-access (Forbidden) error, for every
requester, because the deletion removed every grant on the ledger and the
service reports the failed read-capability check, not NotFound. -/
theorem listChanges_after_delete_forbidden (db : DB)
    (userID ledgerID requesterID : String) (db' : DB)
    (fromSeq toSeq : Int)
    (h : Service.DeleteLedger db userID ledgerID = .ok db') :
    Service.GetLedgerChanges db' requesterID ledgerID fromSeq toSeq
      = .error ServiceError.readForbidden := by
  simp only [Service.DeleteLedger] at h
  split at h
  · exact absurd h (by simp)
  · split at h
    · exact absurd h (by simp)
    · simp only [Repo.DeleteLedger] at h
      injection h with h
      have husers : db'.ledgerUsers
          = db.ledgerUsers.filter (fun lu => lu.ledgerId ≠ ledgerID) := by
        rw [← h]
      have hacc : Repo.CheckLedgerAccess db' ledgerID requesterID "read"
          = false := by
        simp only [Repo.CheckLedgerAccess, husers]
        rw [find?_filter_none]
        intro a ha
        simp only [decide_eq_true_eq] at ha
        simp [ha.1]
      simp only [Service.GetLedgerChanges]
      rw [if_neg (by simp [hacc])]

/-- C9 amended witness: the concrete delete-then-list scenario on L1. -/
theorem listChanges_after_delete_forbidden_witness :
    Service.GetLedgerChanges initDB "u1" "L1" 1 0
      = .error ServiceError.readForbidden :=
  listChanges_after_delete_forbidden demoDB2 "u1" "L1" "u1" initDB 1 0 rfl

/-- C10: a toSeq of zero or below is treated as "no upper bound": the
range query coincides with the unbounded query and returns every change
of the ledger with sequence number at least fromSeq. -/
theorem rangeQuery_toSeq_nonpositive_unbounded (db : DB)
    (ledgerID : String) (fromSeq toSeq : Int) (h : toSeq ≤ 0) :
    Repo.GetLedgerChangesBySequenceRange db ledgerID fromSeq toSeq
      = Repo.GetLedgerChangesBySequenceRange db ledgerID fromSeq 0 ∧
    (∀ c, c ∈ Repo.GetLedgerChangesBySequenceRange db ledgerID fromSeq toSeq
      ↔ (c ∈ db.ledgerChanges ∧ c.ledgerId = ledgerID ∧
          fromSeq ≤ c.sequenceNumber)) := by
  have hnot : ¬ (0 : Int) < toSeq := by omega
  constructor
  · simp only [Repo.GetLedgerChangesBySequenceRange, if_neg hnot,
      if_neg (by omega : ¬ (0 : Int) < (0 : Int))]
  · intro c
    simp only [Repo.GetLedgerChangesBySequenceRange, if_neg hnot]
    rw [List.mem_insertionSort]
    simp only [List.mem_filter, decide_eq_true_eq]

/-- C10 witness: a negative toSeq over the one-change state equals the
unbounded query and keeps the committed change. -/
theorem rangeQuery_toSeq_nonpositive_unbounded_witness :
    Repo.GetLedgerChangesBySequenceRange demoDB2 "L1" 1 (-3)
      = Repo.GetLedgerChangesBySequenceRange demoDB2 "L1" 1 0 ∧
    (∀ c, c ∈ Repo.GetLedgerChangesBySequenceRange demoDB2 "L1" 1 (-3)
      ↔ (c ∈ demoDB2.ledgerChanges ∧ c.ledgerId = "L1" ∧
          1 ≤ c.sequenceNumber)) :=
  rangeQuery_toSeq_nonpositive_unbounded demoDB2 "L1" 1 (-3) (by decide)

end CompServer
